import Mathlib

/-!
# Verification of the `project-exporter` traversal-and-export engine

Shallow embedding of `src/projectExporter.ts` (class `ProjectExporter`).
Strings are modelled as `List Char` (`Str`); the filesystem seen by the
walker is modelled as a first-order entry chain (`FS`); JavaScript's
cooperative cancellation token is modelled by the index of the first
token read that observes cancellation (`polled`).
-/

/-- Strings are modelled as lists of characters, so that concatenation and
suffix reasoning are plain list facts. -/
abbrev Str := List Char

/-- Convert a Lean string literal to the `Str` model. -/
def str (s : String) : Str := s.data

/-- JavaScript `String.prototype.toLowerCase` restricted to ASCII letters,
which is its behaviour on all characters occurring in the embedded tables. -/
def jsLowerChar (c : Char) : Char :=
  if 'A' ≤ c ∧ c ≤ 'Z' then Char.ofNat (c.toNat + 32) else c

/-- JavaScript `toLowerCase` on a whole string. -/
def jsLower (s : Str) : Str := s.map jsLowerChar

/-- JavaScript `String.prototype.endsWith`: `p` is a suffix of `s`. -/
def endsWithB (p s : Str) : Bool := p.reverse.isPrefixOf s.reverse

/-- POSIX `path.join(dir, item)` for a well-formed directory path and entry
name: concatenation with a single separator. -/
def pathJoin (dir item : Str) : Str := dir ++ '/' :: item

/-- The root-relative path of an entry: `path.relative(rootPath, fullPath)`
for an entry named `item` inside the directory whose root-relative path is
`parentRel` (empty for the root itself). -/
def joinRel (parentRel item : Str) : Str :=
  if parentRel = [] then item else parentRel ++ '/' :: item

/-- The basename of a path: the part after the last `/`. -/
def basename (s : Str) : Str := (s.reverse.takeWhile (fun c => c ≠ '/')).reverse

/-- Digit character for a value below 10. -/
def digitCh (d : Nat) : Char := Char.ofNat (48 + d)

/-- Decimal digits of a natural number, with explicit fuel so that the
definition is structurally recursive (the fuel `n + 1` always suffices). -/
def natDigitsAux : Nat → Nat → Str
  | 0, _ => []
  | fuel + 1, n => if n < 10 then [digitCh n] else natDigitsAux fuel (n / 10) ++ [digitCh (n % 10)]

/-- Decimal rendering of a natural number. -/
def natDigits (n : Nat) : Str := natDigitsAux (n + 1) n

/-- Left-pad the decimal rendering of `n` with zeros to width `w`. -/
def padZero (w n : Nat) : Str :=
  let d := natDigits n
  List.replicate (w - d.length) '0' ++ d

/-! ## Static tables of `ProjectExporter` -/

/-- Table `ProjectExporter.defaultIgnore` (projectExporter.ts lines 14-34). -/
def defaultIgnore : List Str :=
  [str "**/node_modules/**", str "**/.git/**", str "**/dist/**", str "**/build/**",
   str "**/.next/**", str "**/coverage/**", str "**/.vscode/**", str "**/.idea/**",
   str "**/out/**", str "**/bin/**", str "**/*.lock", str "**/.DS_Store",
   str "**/*.log", str "**/*.map", str "**/*.min.js", str "**/*.min.css",
   str "**/vendor/**", str "**/public/assets/**", str "**/.cache/**"]

/-- Table `ProjectExporter.binaryExtensions` (lines 36-43). -/
def binaryExtensions : List Str :=
  [str ".jpg", str ".jpeg", str ".png", str ".gif", str ".ico", str ".pdf",
   str ".exe", str ".dll", str ".so", str ".dylib", str ".bin",
   str ".zip", str ".tar", str ".gz", str ".7z", str ".rar",
   str ".woff", str ".woff2", str ".ttf", str ".eot",
   str ".mp3", str ".mp4", str ".avi", str ".mov",
   str ".sqlite", str ".db", str ".dat"]

/-- Table `ProjectExporter.languageMap` (lines 45-74). -/
def languageMap : List (Str × Str) :=
  [(str ".js", str "javascript"), (str ".ts", str "typescript"),
   (str ".jsx", str "javascript"), (str ".tsx", str "typescript"),
   (str ".py", str "python"), (str ".java", str "java"),
   (str ".html", str "html"), (str ".css", str "css"),
   (str ".scss", str "scss"), (str ".json", str "json"),
   (str ".md", str "markdown"), (str ".xml", str "xml"),
   (str ".yaml", str "yaml"), (str ".yml", str "yaml"),
   (str ".sh", str "shell"), (str ".bash", str "shell"),
   (str ".php", str "php"), (str ".rb", str "ruby"),
   (str ".go", str "go"), (str ".rs", str "rust"),
   (str ".cpp", str "cpp"), (str ".c", str "c"),
   (str ".cs", str "csharp"), (str ".vue", str "vue"),
   (str ".svelte", str "svelte"), (str ".sql", str "sql"),
   (str ".graphql", str "graphql"), (str ".proto", str "protobuf")]

/-- Constant `maxFileSizeBytes = 1024 * 1024` (line 76). -/
def maxFileSizeBytes : Nat := 1024 * 1024

/-- The `quickIgnoreList` of `isQuickIgnored` (lines 85-94). -/
def quickIgnoreList : List Str :=
  [str "node_modules", str ".git", str "dist", str "build",
   str ".next", str "coverage", str ".vscode", str ".idea"]

/-- Embeds `ProjectExporter.isQuickIgnored` (lines 84-96): exact membership of the
entry name in the quick-ignore list. -/
def isQuickIgnored (filename : Str) : Bool := quickIgnoreList.any (fun q => q = filename)

/-- Embeds `ProjectExporter.isBinaryPath` (lines 78-82): some binary extension is a
suffix of the lowercased path. -/
def isBinaryPath (filePath : Str) : Bool :=
  binaryExtensions.any (fun ext => endsWithB ext (jsLower filePath))

/-- Node `path.extname`: the final `.`-suffix of the basename, empty when the
basename has no dot or only a leading dot (`".gitignore"` → `""`,
`"a.min.js"` → `".js"`, `"a."` → `"."`). -/
def extnameNode (p : Str) : Str :=
  let base := basename p
  let revBase := base.reverse
  let pre := revBase.takeWhile (fun c => c ≠ '.')
  if pre.length = revBase.length then []          -- no dot at all
  else if pre.length + 1 = revBase.length then [] -- only a leading dot
  else '.' :: pre.reverse

/-- Embeds `ProjectExporter.getLanguageId` (lines 388-391): lowercased `path.extname`
looked up in `languageMap`, empty string when absent. -/
def getLanguageId (filePath : Str) : Str :=
  match languageMap.find? (fun kv => kv.1 = jsLower (extnameNode filePath)) with
  | some kv => kv.2
  | none => []

/-! ## The ignore-pattern matcher

`collectFiles` and `getProjectStructure` both test
`new RegExp(pattern.replace(/\*\*/g, '.*')).test(relativePath)`
(lines 258-261 and 324-327).  After the substitution, every default pattern
is a regular expression over a tiny dialect: a sequence of atoms, each a
literal character or `.` (any character), each optionally followed by the
quantifier `*`.  The matcher below embeds exactly that dialect;
`RegExp.test` is unanchored, i.e. succeeds when the expression matches at
any position. -/

/-- Embeds `pattern.replace(/\*\*/g, '.*')`: replace every (left-to-right,
non-overlapping) occurrence of `**` by `.*`. -/
def replaceDoubleStar : Str → Str
  | '*' :: '*' :: rest => '.' :: '*' :: replaceDoubleStar rest
  | c :: rest => c :: replaceDoubleStar rest
  | [] => []

/-- A regex atom of the dialect: any character (`.`) or a literal character. -/
inductive RAtom where
  | anyChar : RAtom
  | lit (c : Char) : RAtom
deriving DecidableEq, Repr

/-- A compiled expression: atoms, each flagged when followed by `*`. -/
abbrev Regex := List (RAtom × Bool)

/-- The atom denoted by one (non-quantifier) pattern character. -/
def mkAtom (c : Char) : RAtom := if c = '.' then .anyChar else .lit c

/-- Compile the substituted pattern text into the atom sequence. -/
def compileRegex : Str → Regex
  | [] => []
  | c :: '*' :: rest => (mkAtom c, true) :: compileRegex rest
  | c :: rest => (mkAtom c, false) :: compileRegex rest

/-- Whether an atom matches one character. -/
def atomMatches : RAtom → Char → Bool
  | .anyChar, _ => true
  | .lit c, d => c = d

/-- Backtracking matcher: does `re` match some prefix of `s`?  The `fuel`
argument makes the recursion structural; `re.length + s.length` strictly
decreases at every call, so any larger fuel is sufficient. -/
def reMatchPrefixF : Nat → Regex → Str → Bool
  | 0, _, _ => false
  | _ + 1, [], _ => true
  | _ + 1, (_, false) :: _, [] => false
  | fuel + 1, (a, false) :: rs, c :: cs => atomMatches a c && reMatchPrefixF fuel rs cs
  | fuel + 1, (_, true) :: rs, [] => reMatchPrefixF fuel rs []
  | fuel + 1, (a, true) :: rs, c :: cs =>
      reMatchPrefixF fuel rs (c :: cs) || (atomMatches a c && reMatchPrefixF fuel ((a, true) :: rs) cs)

/-- Does `re` match some prefix of `s`? (with sufficient fuel) -/
def reMatchPrefix (re : Regex) (s : Str) : Bool :=
  reMatchPrefixF (re.length + s.length + 1) re s

/-- Embeds `RegExp.test`: does `re` match starting at some position of `s`? -/
def regexSearch (re : Regex) : Str → Bool
  | [] => reMatchPrefix re []
  | c :: cs => reMatchPrefix re (c :: cs) || regexSearch re cs

/-- The per-pattern test of lines 258-261 / 324-327. -/
def patternIgnoredBy (pattern relativePath : Str) : Bool :=
  regexSearch (compileRegex (replaceDoubleStar pattern)) relativePath

/-- Embeds `defaultIgnore.some(pattern => new RegExp(...).test(relativePath))`. -/
def isPatternIgnored (relativePath : Str) : Bool :=
  defaultIgnore.any (fun p => patternIgnoredBy p relativePath)

/-! Declarative matching semantics for the dialect, used to state what the
executable matcher decides. -/

/-- Relation `ReMatch re s`: the compiled expression `re` matches exactly the string
`s` (a starred atom matches zero or more characters, an unstarred atom
matches one). -/
inductive ReMatch : Regex → Str → Prop where
  | nil : ReMatch [] []
  | one {a : RAtom} {c : Char} {rs : Regex} {cs : Str} :
      atomMatches a c = true → ReMatch rs cs → ReMatch ((a, false) :: rs) (c :: cs)
  | starSkip {a : RAtom} {rs : Regex} {s : Str} :
      ReMatch rs s → ReMatch ((a, true) :: rs) s
  | starCons {a : RAtom} {c : Char} {rs : Regex} {cs : Str} :
      atomMatches a c = true → ReMatch ((a, true) :: rs) cs → ReMatch ((a, true) :: rs) (c :: cs)

/-- Spec-words matcher, for comparison with the code's matcher.
Modelled from the spec: "each pattern's double-wildcard segments are treated
as `match any sequence of characters` and the remainder matched literally"
— `**` matches any character sequence, every other pattern character
(including `.` and a single `*`) matches only itself. -/
def specMatch : Str → Str → Bool
  | '*' :: '*' :: pr, s => s.tails.any (fun t => specMatch pr t)
  | c :: pr, d :: s => c = d && specMatch pr s
  | _ :: _, [] => false
  | [], [] => true
  | [], _ :: _ => false

/-! ## The filesystem model

The walker observes the filesystem only through `readdir`, `stat`,
`readFile`.  A directory listing is modelled as a first-order chain of
entries: for each entry, its `stat` metadata is carried inline, and
`readable` records whether the corresponding read (`readFile` for files,
`readdir` for directories) succeeds. -/

/-- A directory listing (the sequence `readdir` yields, in listing order). -/
inductive FS where
  /-- end of the listing -/
  | nil : FS
  /-- a file entry: name, `stat.size`, `stat.mtime` (epoch ms), contents,
  whether `readFile` succeeds; then the rest of the listing -/
  | file (name : Str) (size : Nat) (mtime : Nat) (content : Str) (readable : Bool) (rest : FS) : FS
  /-- a directory entry: name, whether `readdir` on it succeeds, its own
  listing; then the rest of the listing -/
  | dir (name : Str) (readable : Bool) (entries : FS) (rest : FS) : FS
deriving DecidableEq, Repr

/-- The name of the head entry together with its directory flag, for each
entry of a listing — the view the sort comparator of `getProjectStructure`
acts on. -/
def listing : FS → List (Str × Bool)
  | .nil => []
  | .file n _ _ _ _ rest => (n, false) :: listing rest
  | .dir n _ _ rest => (n, true) :: listing rest

/-- Every entry name in the tree is free of `/` (true of anything `readdir`
can return). -/
def noSlashNames : FS → Bool
  | .nil => true
  | .file n _ _ _ _ rest => n.all (fun c => c ≠ '/') && noSlashNames rest
  | .dir n _ es rest => n.all (fun c => c ≠ '/') && noSlashNames es && noSlashNames rest

/-! ## Cancellation

`vscode.CancellationToken.isCancellationRequested` is polled at the start of
each directory-entry iteration.  Cancellation is modelled by `cancelAt`: the
0-indexed count of token reads after which every read observes cancellation
(`none` = never cancelled).  This makes the token monotone, as the real one
is. -/

/-- The value of token read number `n` (0-indexed). -/
def polled (cancelAt : Option Nat) (n : Nat) : Bool :=
  match cancelAt with
  | none => false
  | some k => k ≤ n

/-! ## `collectFiles` (lines 210-303) -/

/-- One record of the `FileData[]` result (fields as constructed at lines
283-289 and described in spec §3). -/
structure FileData where
  path : Str
  content : Str
  language : Str
  size : Nat
  lastModified : Nat
deriving DecidableEq, Repr

/-- A JavaScript number that is either finite or the infinity produced by
dividing a positive number by zero. -/
inductive JsNum where
  | fin (q : ℚ) : JsNum
  | inf : JsNum
deriving DecidableEq, Repr

/-- JavaScript division as used at line 268: `100 / totalFiles` yields
`Infinity` when `totalFiles` is `0`. -/
def jsDiv (a b : ℚ) : JsNum := if b = 0 then .inf else .fin (a / b)

/-- One `progress.report` call of the scanning pass (lines 266-269). -/
structure Report where
  message : Str
  increment : JsNum
deriving DecidableEq, Repr

/-- The message `Scanning: ${relativePath} (${scannedFiles}/${totalFiles})`. -/
def scanMessage (rel : Str) (scanned total : Nat) : Str :=
  str "Scanning: " ++ rel ++ str " (" ++ natDigits scanned ++ str "/" ++ natDigits total ++ str ")"

/-- The counting pass `countFiles` (lines 220-241): quick-ignore filter only,
counts non-directory entries; a `readdir` failure on a directory is caught
and that directory contributes nothing; the token is read at the start of
each iteration and on observing cancellation the current call returns.
Arguments: listing, token reads so far, count so far; result: (reads, count). -/
def countGo (cancelAt : Option Nat) : FS → Nat → Nat → Nat × Nat
  | .nil, polls, total => (polls, total)
  | .file n _ _ _ _ rest, polls, total =>
    if polled cancelAt polls then (polls + 1, total)
    else if isQuickIgnored n then countGo cancelAt rest (polls + 1) total
    else countGo cancelAt rest (polls + 1) (total + 1)
  | .dir n readable es rest, polls, total =>
    if polled cancelAt polls then (polls + 1, total)
    else if isQuickIgnored n then countGo cancelAt rest (polls + 1) total
    else
      let r := if readable then countGo cancelAt es (polls + 1) total else (polls + 1, total)
      countGo cancelAt rest r.1 r.2

/-- The mutable state of the scanning pass: token reads, `scannedFiles`, the
`files` accumulator and the progress reports issued. -/
structure ScanSt where
  polls : Nat
  scanned : Nat
  files : List FileData
  reports : List Report
deriving DecidableEq, Repr

/-- The scanning pass `traverse` (lines 245-299): token read at the start of
each iteration (on cancellation the current call returns, so the recursion
unwinds as each enclosing loop re-reads the token); quick-ignore then
pattern filter; `stat`, `scannedFiles++` and a progress report for every
accepted entry; directories recurse (`readdir` failure caught inside the
recursive call); files are skipped when larger than `maxFileSizeBytes` or
binary, otherwise read (`readFile` failure caught, entry skipped) and pushed
onto `files`. -/
def travGo (root : Str) (cancelAt : Option Nat) (total : Nat) : FS → Str → ScanSt → ScanSt
  | .nil, _, st => st
  | .file n sz mt ct rd rest, parentRel, st =>
    if polled cancelAt st.polls then { st with polls := st.polls + 1 }
    else
      let st1 := { st with polls := st.polls + 1 }
      let rel := joinRel parentRel n
      if isQuickIgnored n then travGo root cancelAt total rest parentRel st1
      else if isPatternIgnored rel then travGo root cancelAt total rest parentRel st1
      else
        let st2 := { st1 with scanned := st1.scanned + 1,
                              reports := st1.reports ++ [⟨scanMessage rel (st1.scanned + 1) total, jsDiv 100 total⟩] }
        if sz > maxFileSizeBytes then travGo root cancelAt total rest parentRel st2
        else if isBinaryPath (pathJoin root rel) then travGo root cancelAt total rest parentRel st2
        else if rd then
          travGo root cancelAt total rest parentRel
            { st2 with files := st2.files ++ [⟨rel, ct, getLanguageId (pathJoin root rel), sz, mt⟩] }
        else travGo root cancelAt total rest parentRel st2
  | .dir n rd es rest, parentRel, st =>
    if polled cancelAt st.polls then { st with polls := st.polls + 1 }
    else
      let st1 := { st with polls := st.polls + 1 }
      let rel := joinRel parentRel n
      if isQuickIgnored n then travGo root cancelAt total rest parentRel st1
      else if isPatternIgnored rel then travGo root cancelAt total rest parentRel st1
      else
        let st2 := { st1 with scanned := st1.scanned + 1,
                              reports := st1.reports ++ [⟨scanMessage rel (st1.scanned + 1) total, jsDiv 100 total⟩] }
        let st3 := if rd then travGo root cancelAt total es rel st2 else st2
        travGo root cancelAt total rest parentRel st3

/-- The complete result of one `collectFiles` call. -/
structure ScanResult where
  files : List FileData
  reports : List Report
  polls : Nat
  total : Nat
  scanned : Nat
deriving DecidableEq, Repr

/-- Embeds `collectFiles(rootPath, progress, token)` (lines 210-303): the counting
pass runs first (establishing `totalFiles`), then the scanning pass; the
accumulated `files` array is returned as-is (also when cancellation cut the
scan short). -/
def collectFiles (root : Str) (t : FS) (cancelAt : Option Nat) : ScanResult :=
  let c := countGo cancelAt t 0 0
  let st := travGo root cancelAt c.2 t [] ⟨c.1, 0, [], []⟩
  ⟨st.files, st.reports, st.polls, c.2, st.scanned⟩

/-! ## `getProjectStructure` (lines 305-344) -/

/-- The directory marker pushed at line 332 (the source file stores the
folder emoji double-encoded; these are its literal characters) plus the
trailing space. -/
def dirMarker : Str := [Char.ofNat 0xF0, Char.ofNat 0x178, Char.ofNat 0x201C, ' ']

/-- The file marker pushed at line 336 (same double-encoding) plus the
trailing space. -/
def fileMarker : Str := [Char.ofNat 0xF0, Char.ofNat 0x178, Char.ofNat 0x201C, Char.ofNat 0x201E, ' ']

/-- Comparison step of `String.prototype.localeCompare`, modelled as code-point lexicographic
comparison. -/
def charOrd (c d : Char) : Ordering := if c < d then .lt else if c = d then .eq else .gt

/-- Lexicographic comparison of strings. -/
def strOrd : Str → Str → Ordering
  | [], [] => .eq
  | [], _ :: _ => .lt
  | _ :: _, [] => .gt
  | c :: cs, d :: ds => match charOrd c d with | .eq => strOrd cs ds | o => o

/-- Embeds `a.localeCompare(b)` as the comparator uses it: negative, zero, positive. -/
def localeCompare (a b : Str) : Int :=
  match strOrd a b with | .lt => -1 | .eq => 0 | .gt => 1

/-- The sort comparator of lines 310-316 on (name, isDirectory) views:
directories before files, then `localeCompare` on names. -/
def jsCmp (aName : Str) (aDir : Bool) (bName : Str) (bDir : Bool) : Int :=
  if aDir && !bDir then -1
  else if !aDir && bDir then 1
  else localeCompare aName bName

/-- Insert one entry (rebuilt by `mk` around a new tail) into an already
comparator-sorted listing, before the first entry not strictly preceding
it — the position JavaScript's stable `Array.prototype.sort` gives an
element that preceded the others. -/
def insEnt (mk : FS → FS) (nm : Str) (isD : Bool) : FS → FS
  | .nil => mk .nil
  | .file n' s' m' c' r' rest =>
    if jsCmp n' false nm isD < 0 then .file n' s' m' c' r' (insEnt mk nm isD rest)
    else mk (.file n' s' m' c' r' rest)
  | .dir n' r' es' rest =>
    if jsCmp n' true nm isD < 0 then .dir n' r' es' (insEnt mk nm isD rest)
    else mk (.dir n' r' es' rest)

/-- Embeds `files.sort(comparator)` (lines 310-316): stable sort of one directory
listing by the comparator. -/
def sortFS : FS → FS
  | .nil => .nil
  | .file n s m c r rest => insEnt (.file n s m c r) n false (sortFS rest)
  | .dir n r es rest => insEnt (.dir n r es) n true (sortFS rest)

/-- Recursively sort the listings of all subdirectories (leaving the current
level untouched).  The source sorts each directory's listing on visiting it
(line 310); hoisting the sort of every level ahead of the traversal yields
the same visit order and keeps the traversal structurally recursive. -/
def sortDeep : FS → FS
  | .nil => .nil
  | .file n s m c r rest => .file n s m c r (sortDeep rest)
  | .dir n r es rest => .dir n r (sortFS (sortDeep es)) (sortDeep rest)

/-- The loop body of `getProjectStructure.traverse` (lines 318-339) over an
already-sorted listing: quick-ignore then pattern filter; an accepted
directory pushes its marker line and recurses with two more spaces of
indentation — its `readdir` failure is NOT caught and propagates (there is
no try/catch in `getProjectStructure`); an accepted non-binary file pushes
its marker line. -/
def structGo (root : Str) : FS → Str → Str → Except Unit (List Str)
  | .nil, _, _ => .ok []
  | .file n _ _ _ _ rest, parentRel, pre =>
    let rel := joinRel parentRel n
    if isQuickIgnored n then structGo root rest parentRel pre
    else if isPatternIgnored rel then structGo root rest parentRel pre
    else if isBinaryPath (pathJoin root rel) then structGo root rest parentRel pre
    else
      match structGo root rest parentRel pre with
      | .error e => .error e
      | .ok ls => .ok ((pre ++ fileMarker ++ n) :: ls)
  | .dir n rd es rest, parentRel, pre =>
    let rel := joinRel parentRel n
    if isQuickIgnored n then structGo root rest parentRel pre
    else if isPatternIgnored rel then structGo root rest parentRel pre
    else if rd then
      match structGo root es rel (pre ++ str "  ") with
      | .error e => .error e
      | .ok sub =>
        match structGo root rest parentRel pre with
        | .error e => .error e
        | .ok ls => .ok ((pre ++ dirMarker ++ n) :: sub ++ ls)
    else .error ()

/-- Embeds `items.join('\n')`. -/
def joinNl : List Str → Str
  | [] => []
  | [l] => l
  | l :: rest => l ++ '\n' :: joinNl rest

/-- Embeds `getProjectStructure(rootPath)` (lines 305-344): traverse the tree with
per-level comparator sorting and join the pushed lines; any `readdir`
failure rejects the whole call (caught only by `exportProject`'s outer
handler). -/
def getProjectStructure (root : Str) (t : FS) : Except Unit Str :=
  match structGo root (sortFS (sortDeep t)) [] [] with
  | .error e => .error e
  | .ok items => .ok (joinNl items)

/-! ## `formatOutput` (lines 346-386) -/

/-- The three full-export formats (line 10). -/
inductive ExportFormat where
  | Markdown | JSON | Text
deriving DecidableEq, Repr

/-- Year, month, day of a count of days since 1970-01-01 (proleptic
Gregorian, standard civil-from-days computation; valid for the model's
post-epoch timestamps). -/
def civilFromDays (z : Nat) : Nat × Nat × Nat :=
  let z' := z + 719468
  let era := z' / 146097
  let doe := z' % 146097
  let yoe := (doe - doe / 1460 + doe / 36524 - doe / 146096) / 365
  let y := yoe + era * 400
  let doy := doe - (365 * yoe + yoe / 4 - yoe / 100)
  let mp := (5 * doy + 2) / 153
  let d := doy - (153 * mp + 2) / 5 + 1
  let m := if mp < 10 then mp + 3 else mp - 9
  (if m ≤ 2 then y + 1 else y, m, d)

/-- Embeds `Date.prototype.toISOString` of an epoch-milliseconds timestamp:
`YYYY-MM-DDTHH:mm:ss.sssZ`. -/
def toISOString (ms : Nat) : Str :=
  let days := ms / 86400000
  let rem := ms % 86400000
  let ymd := civilFromDays days
  padZero 4 ymd.1 ++ '-' :: padZero 2 ymd.2.1 ++ '-' :: padZero 2 ymd.2.2 ++
  'T' :: padZero 2 (rem / 3600000) ++ ':' :: padZero 2 (rem % 3600000 / 60000) ++
  ':' :: padZero 2 (rem % 60000 / 1000) ++ '.' :: padZero 3 (rem % 1000) ++ ['Z']

/-- An opening brace character (the JSON text contains braces). -/
def lbrace : Char := Char.ofNat 123

/-- A closing brace character. -/
def rbrace : Char := Char.ofNat 125

/-- Hexadecimal digit character. -/
def hexCh (d : Nat) : Char := if d < 10 then digitCh d else Char.ofNat (97 + (d - 10))

/-- Embeds `JSON.stringify` escaping of one character inside a string literal. -/
def jsonEscapeChar (c : Char) : Str :=
  if c = '"' then ['\\', '"']
  else if c = '\\' then ['\\', '\\']
  else if c = Char.ofNat 8 then ['\\', 'b']
  else if c = Char.ofNat 9 then ['\\', 't']
  else if c = Char.ofNat 10 then ['\\', 'n']
  else if c = Char.ofNat 12 then ['\\', 'f']
  else if c = Char.ofNat 13 then ['\\', 'r']
  else if c.toNat < 32 then ['\\', 'u', '0', '0', hexCh (c.toNat / 16), hexCh (c.toNat % 16)]
  else [c]

/-- A JSON string literal: quoted, escaped. -/
def jsonStr (s : Str) : Str := '"' :: (s.flatMap jsonEscapeChar) ++ ['"']

/-- One element of the `files` array of the JSON output:
`{...f, lastModified: f.lastModified.toISOString()}` serialized by
`JSON.stringify(·, null, 2)` at array depth (object at indent 4, members at
indent 6). -/
def jsonFileObj (f : FileData) : Str :=
  str "    " ++ lbrace ::
  str "\n      \"path\": " ++ jsonStr f.path ++
  str ",\n      \"content\": " ++ jsonStr f.content ++
  str ",\n      \"language\": " ++ jsonStr f.language ++
  str ",\n      \"size\": " ++ natDigits f.size ++
  str ",\n      \"lastModified\": " ++ jsonStr (toISOString f.lastModified) ++
  str "\n    " ++ [rbrace]

/-- Join with `,\n`. -/
def joinCommaNl : List Str → Str
  | [] => []
  | [l] => l
  | l :: rest => l ++ ',' :: '\n' :: joinCommaNl rest

/-- The `files` array of the JSON output (`[]` when empty, per
`JSON.stringify`). -/
def jsonFilesArr (files : List FileData) : Str :=
  match files with
  | [] => str "[]"
  | _ => str "[\n" ++ joinCommaNl (files.map jsonFileObj) ++ str "\n  ]"

/-- Embeds `(file.size / 1024).toFixed(2)`: the size in KiB with two decimals,
rounded half-up as `toFixed` does (`size / 1024` is exact in binary
floating point for any realistic size, so no double-rounding occurs). -/
def kbString (size : Nat) : Str :=
  let n := (50 * size + 256) / 512
  natDigits (n / 100) ++ '.' :: padZero 2 (n % 100)

/-- Embeds `'='.repeat(40)`. -/
def sepLine : Str := List.replicate 40 '='

/-- The Markdown per-file section (lines 376-382). -/
def mdFileSection (f : FileData) : Str :=
  str "### " ++ f.path ++ str "\n" ++
  str "Last modified: " ++ toISOString f.lastModified ++ str "\n" ++
  str "Size: " ++ kbString f.size ++ str " KB\n\n" ++
  str "```" ++ f.language ++ str "\n" ++
  f.content ++ str "\n```\n\n"

/-- The Text per-file section (lines 363-367). -/
def txtFileSection (f : FileData) : Str :=
  str "=== " ++ f.path ++ str " ===\n\n" ++
  f.content ++ str "\n\n" ++
  sepLine ++ str "\n\n"

/-- Embeds `formatOutput(files, structure, format)` (lines 346-386).  The JSON
branch reads the clock (`new Date().toISOString()`, line 350); `now` is
that ambient clock value in epoch milliseconds. -/
def formatOutput (files : List FileData) (struc : Str) (format : ExportFormat) (now : Nat) : Str :=
  match format with
  | .JSON =>
    lbrace ::
    str "\n  \"exportDate\": " ++ jsonStr (toISOString now) ++
    str ",\n  \"structure\": " ++ jsonStr struc ++
    str ",\n  \"files\": " ++ jsonFilesArr files ++
    str "\n" ++ [rbrace]
  | .Text =>
    str "PROJECT EXPORT\n\n" ++
    str "PROJECT STRUCTURE:\n\n" ++ struc ++ str "\n\n" ++
    str "FILES:\n\n" ++
    (files.map txtFileSection).flatten
  | .Markdown =>
    str "# Project Export\n\n" ++
    str "## Project Structure\n\n```\n" ++ struc ++ str "\n```\n\n" ++
    str "## Files\n\n" ++
    (files.map mdFileSection).flatten

/-! ## `exportProject` (lines 98-178) and `quickExport` (lines 180-208) -/

/-- Outcome of the `withProgress` callback of `exportProject` once a format
and output path were chosen: cancellation shows an informational message and
writes nothing; a structure-pass failure hits the outer catch (error
message, rethrow); otherwise the formatted document is written. -/
inductive ExportOutcome where
  | cancelledInfo : ExportOutcome
  | completed (written : Str) : ExportOutcome
  | failedError : ExportOutcome
deriving DecidableEq, Repr

/-- The `withProgress` callback of `exportProject` (lines 139-177):
`collectFiles`, the post-scan cancellation check (lines 149-152, the token
read after the scan's reads), `getProjectStructure`, `formatOutput`, write. -/
def exportRun (root : Str) (t : FS) (format : ExportFormat) (cancelAt : Option Nat) (now : Nat) :
    ExportOutcome :=
  let scan := collectFiles root t cancelAt
  if polled cancelAt scan.polls then .cancelledInfo
  else
    match getProjectStructure root t with
    | .error _ => .failedError
    | .ok struc => .completed (formatOutput scan.files struc format now)

/-- The two quick-export formats (line 11). -/
inductive QuickExportFormat where
  | Markdown | Text
deriving DecidableEq, Repr

/-- The text `quickExport` copies to the clipboard (lines 193-204), given the
active document's file name, language id, full text, and the selection
(`selEmpty` = `selection.isEmpty`, `selText` = the selected range's text). -/
def quickExportOutput (fileName languageId docText : Str) (selEmpty : Bool) (selText : Str)
    (format : QuickExportFormat) : Str :=
  let content := if selEmpty then docText else selText
  match format with
  | .Text => str "FILE: " ++ fileName ++ str "\n\n" ++ content
  | .Markdown =>
    str "# Quick Export\n\n## File: " ++ fileName ++ str "\n\n```" ++ languageId ++
    str "\n" ++ content ++ str "\n```"

/-! ## Basic lemmas about the string model and the token -/

theorem polled_mono {cancelAt : Option Nat} {i j : Nat}
    (h : polled cancelAt i = true) (hij : i ≤ j) : polled cancelAt j = true := by
  cases cancelAt with
  | none => simp [polled] at h
  | some k => simp only [polled, decide_eq_true_eq] at h ⊢; omega

theorem isPrefixOf_append {a b : Str} (c : Str) (h : a.isPrefixOf b = true) :
    a.isPrefixOf (b ++ c) = true := by
  induction a generalizing b with
  | nil => simp [List.isPrefixOf]
  | cons x xs ih =>
    cases b with
    | nil => simp [List.isPrefixOf] at h
    | cons y ys =>
      simp only [List.isPrefixOf, Bool.and_eq_true] at h ⊢
      exact ⟨h.1, ih h.2⟩

theorem takeWhile_append_all {p : Char → Bool} {l₁ : Str} (d : Char) (l₂ : Str)
    (h₁ : ∀ c ∈ l₁, p c = true) (h₂ : p d = false) :
    (l₁ ++ d :: l₂).takeWhile p = l₁ := by
  induction l₁ with
  | nil => simp [List.takeWhile, h₂]
  | cons c cs ih =>
    have hc : p c = true := h₁ c (by simp)
    simp only [List.cons_append, List.takeWhile, hc]
    show c :: (cs ++ d :: l₂).takeWhile p = c :: cs
    rw [ih (fun x hx => h₁ x (by simp [hx]))]

theorem takeWhile_all {p : Char → Bool} {l : Str} (h : ∀ c ∈ l, p c = true) :
    l.takeWhile p = l := by
  induction l with
  | nil => rfl
  | cons c cs ih =>
    have hc : p c = true := h c (by simp)
    simp only [List.takeWhile, hc]
    rw [ih (fun x hx => h x (by simp [hx]))]

theorem basename_joinRel {n : Str} (parentRel : Str)
    (h : n.all (fun c => c ≠ '/') = true) : basename (joinRel parentRel n) = n := by
  have hall : ∀ c ∈ n.reverse, (fun c => decide (c ≠ '/')) c = true := by
    intro c hc
    simp only [List.all_eq_true] at h
    exact h c (List.mem_reverse.mp hc)
  by_cases hpr : parentRel = []
  · have hj : joinRel parentRel n = n := by simp [joinRel, hpr]
    rw [hj]
    simp only [basename]
    rw [takeWhile_all hall, List.reverse_reverse]
  · have hj : joinRel parentRel n = parentRel ++ '/' :: n := by simp [joinRel, hpr]
    rw [hj]
    simp only [basename]
    have hrev : (parentRel ++ '/' :: n).reverse = n.reverse ++ '/' :: parentRel.reverse := by
      simp
    rw [hrev, takeWhile_append_all '/' parentRel.reverse hall (by decide), List.reverse_reverse]

theorem isBinaryPath_pathJoin {rel : Str} (root : Str)
    (h : isBinaryPath rel = true) : isBinaryPath (pathJoin root rel) = true := by
  simp only [isBinaryPath, List.any_eq_true] at h ⊢
  obtain ⟨ext, hmem, hsuf⟩ := h
  refine ⟨ext, hmem, ?_⟩
  simp only [endsWithB] at hsuf ⊢
  have hmap : jsLower (pathJoin root rel) = jsLower root ++ jsLowerChar '/' :: jsLower rel := by
    simp [pathJoin, jsLower]
  have hsl : jsLowerChar '/' = '/' := by decide
  rw [hmap, hsl]
  have : (jsLower root ++ '/' :: jsLower rel).reverse =
      (jsLower rel).reverse ++ '/' :: (jsLower root).reverse := by simp
  rw [this]
  exact isPrefixOf_append _ hsuf

theorem isBinaryPath_rel_of_pathJoin {rel : Str} (root : Str)
    (h : isBinaryPath (pathJoin root rel) = false) : isBinaryPath rel = false := by
  cases hb : isBinaryPath rel with
  | false => rfl
  | true => rw [isBinaryPath_pathJoin root hb] at h; exact Bool.noConfusion h

/-! ## Correctness of the pattern matcher -/

theorem reMatchPrefixF_iff (fuel : Nat) : ∀ (re : Regex) (s : Str),
    re.length + s.length < fuel →
    (reMatchPrefixF fuel re s = true ↔ ∃ s₁ s₂, s = s₁ ++ s₂ ∧ ReMatch re s₁) := by
  induction fuel with
  | zero => intro re s h; omega
  | succ f ih =>
    rintro (_ | ⟨⟨a, star⟩, rs⟩) s h
    · exact iff_of_true rfl ⟨[], s, rfl, ReMatch.nil⟩
    · cases star with
      | false =>
        cases s with
        | nil =>
          refine iff_of_false (by simp [reMatchPrefixF]) ?_
          rintro ⟨s₁, s₂, hs, hm⟩
          have h1 : s₁ = [] := by cases s₁ with | nil => rfl | cons x xs => simp at hs
          subst h1; cases hm
        | cons c cs =>
          have ihr := ih rs cs (by simp only [List.length_cons] at h; omega)
          show (atomMatches a c && reMatchPrefixF f rs cs) = true ↔ _
          rw [Bool.and_eq_true, ihr]
          constructor
          · rintro ⟨ha, s₁, s₂, rfl, hm⟩
            exact ⟨c :: s₁, s₂, rfl, ReMatch.one ha hm⟩
          · rintro ⟨s₁, s₂, hs, hm⟩
            cases hm with
            | one ha hm' =>
              injection hs with h1 h2
              exact ⟨h1 ▸ ha, _, s₂, h2, hm'⟩
      | true =>
        cases s with
        | nil =>
          have ihr := ih rs [] (by simp only [List.length_cons] at h; omega)
          show reMatchPrefixF f rs [] = true ↔ _
          rw [ihr]
          constructor
          · rintro ⟨s₁, s₂, hs, hm⟩
            have h1 : s₁ = [] := by cases s₁ with | nil => rfl | cons x xs => simp at hs
            subst h1
            exact ⟨[], [], rfl, ReMatch.starSkip hm⟩
          · rintro ⟨s₁, s₂, hs, hm⟩
            have h1 : s₁ = [] := by cases s₁ with | nil => rfl | cons x xs => simp at hs
            subst h1
            cases hm with
            | starSkip hm' => exact ⟨[], [], rfl, hm'⟩
        | cons c cs =>
          have ih1 := ih rs (c :: cs) (by simp only [List.length_cons] at h ⊢; omega)
          have ih2 := ih ((a, true) :: rs) cs (by simp only [List.length_cons] at h ⊢; omega)
          show (reMatchPrefixF f rs (c :: cs) ||
            (atomMatches a c && reMatchPrefixF f ((a, true) :: rs) cs)) = true ↔ _
          rw [Bool.or_eq_true, Bool.and_eq_true, ih1, ih2]
          constructor
          · rintro (⟨s₁, s₂, hs, hm⟩ | ⟨ha, s₁, s₂, rfl, hm⟩)
            · exact ⟨s₁, s₂, hs, ReMatch.starSkip hm⟩
            · exact ⟨c :: s₁, s₂, rfl, ReMatch.starCons ha hm⟩
          · rintro ⟨s₁, s₂, hs, hm⟩
            cases hm with
            | starSkip hm' => exact Or.inl ⟨s₁, s₂, hs, hm'⟩
            | starCons ha hm' =>
              injection hs with h1 h2
              exact Or.inr ⟨h1 ▸ ha, _, s₂, h2, hm'⟩

theorem reMatchPrefix_iff (re : Regex) (s : Str) :
    reMatchPrefix re s = true ↔ ∃ s₁ s₂, s = s₁ ++ s₂ ∧ ReMatch re s₁ :=
  reMatchPrefixF_iff (re.length + s.length + 1) re s (by omega)

theorem regexSearch_iff (re : Regex) : ∀ s : Str,
    regexSearch re s = true ↔ ∃ pre mid post, s = pre ++ (mid ++ post) ∧ ReMatch re mid := by
  intro s
  induction s with
  | nil =>
    show reMatchPrefix re [] = true ↔ _
    rw [reMatchPrefix_iff]
    constructor
    · rintro ⟨s₁, s₂, hs, hm⟩
      exact ⟨[], s₁, s₂, by simp [hs], hm⟩
    · rintro ⟨pre, mid, post, hs, hm⟩
      have hp : pre = [] := by cases pre with | nil => rfl | cons x xs => simp at hs
      subst hp
      exact ⟨mid, post, by simpa using hs, hm⟩
  | cons c cs ih =>
    show (reMatchPrefix re (c :: cs) || regexSearch re cs) = true ↔ _
    rw [Bool.or_eq_true, reMatchPrefix_iff, ih]
    constructor
    · rintro (⟨s₁, s₂, hs, hm⟩ | ⟨pre, mid, post, hs, hm⟩)
      · exact ⟨[], s₁, s₂, by simp [hs], hm⟩
      · exact ⟨c :: pre, mid, post, by simp [hs], hm⟩
    · rintro ⟨pre, mid, post, hs, hm⟩
      cases pre with
      | nil => exact Or.inl ⟨mid, post, by simpa using hs, hm⟩
      | cons c' pre' =>
        injection hs with h1 h2
        exact Or.inr ⟨pre', mid, post, h2, hm⟩

/-! ## Concrete scenario trees -/

/-- Two text files around the size threshold (contents and mtimes arbitrary). -/
def thresholdTree (c₁ c₂ : Str) (m₁ m₂ : Nat) : FS :=
  .file (str "exact.ts") maxFileSizeBytes m₁ c₁ true
    (.file (str "over.ts") (maxFileSizeBytes + 1) m₂ c₂ true .nil)

/-- Two small readable text files. -/
def twoFilesTree : FS :=
  .file (str "a.ts") 3 5 (str "aa") true (.file (str "b.ts") 3 6 (str "bb") true .nil)

/-- A single small readable text file. -/
def oneFileTree : FS := .file (str "a.ts") 3 5 (str "aa") true .nil

/-- A root containing only one empty directory (so the counting pass finds
zero files while the scanning pass still reports the directory entry). -/
def emptyDirTree : FS := .dir (str "src") true .nil .nil

/-- A root with an unreadable subdirectory next to a readable file. -/
def unreadableDirTree : FS :=
  .dir (str "sub") false (.file (str "x.ts") 3 0 (str "a") true .nil)
    (.file (str "ok.ts") 4 0 (str "b") true .nil)

/-! ## Claim C2 — the pattern-matching semantics -/

/-- C2 (counterexample): it is not the case that a relative path is
pattern-ignored exactly when the pattern's `**` segments match any character
sequence and the remainder occurs literally: the path `block.ts` is ignored
by the configured pattern `**/*.lock` (the compiled regex `.*/*.lock` finds
`b` `lock` via the wildcard dot and the collapsed `/*`), yet the literal
remainder `/*.lock` occurs nowhere in it. -/
theorem c2_counterexample :
    ¬ ∀ (rel p : Str), p ∈ defaultIgnore →
        (patternIgnoredBy p rel = true ↔ specMatch p rel = true) := by
  intro h
  have h2 := (h (str "block.ts") (str "**/*.lock") (by decide)).mp (by decide)
  exact absurd h2 (by decide)

/-- C2 (amended): for every relative path and every configured ignore
pattern, the path is pattern-ignored by that pattern exactly when the
regular expression obtained by replacing each `**` with `.*` matches at
some position of the path — `.` matching any single character and `*`
making the preceding atom match zero or more characters — as captured by
the declarative relation `ReMatch` on the compiled pattern. -/
theorem c2_pattern_ignored_iff (rel p : Str) (_hp : p ∈ defaultIgnore) :
    patternIgnoredBy p rel = true ↔
      ∃ pre mid post, rel = pre ++ (mid ++ post) ∧
        ReMatch (compileRegex (replaceDoubleStar p)) mid :=
  regexSearch_iff (compileRegex (replaceDoubleStar p)) rel

/-- C2 (witness for the amended theorem): instantiated at the configured
pattern `**/*.lock` and the path `block.ts`, producing the match the
counterexample relies on. -/
theorem c2_pattern_ignored_iff_witness :
    (str "**/*.lock" ∈ defaultIgnore) ∧
      ∃ pre mid post, str "block.ts" = pre ++ (mid ++ post) ∧
        ReMatch (compileRegex (replaceDoubleStar (str "**/*.lock"))) mid :=
  ⟨by decide,
   (c2_pattern_ignored_iff (str "block.ts") (str "**/*.lock") (by decide)).mp (by decide)⟩

/-! ## Claim C3 — determinism of `formatOutput` -/

/-- C3 (counterexample): two invocations of `formatOutput` on identical
FileRecord sequence, structure text and format need not yield byte-identical
documents: the JSON branch embeds the ambient clock (`new Date()`), so two
invocations one millisecond apart differ. -/
theorem c3_counterexample :
    ¬ ∀ (files : List FileData) (struc : Str) (format : ExportFormat) (now₁ now₂ : Nat),
        formatOutput files struc format now₁ = formatOutput files struc format now₂ := by
  intro h
  exact absurd (h [] [] .JSON 0 1) (by decide)

/-- C3 (amended): the Markdown and Text renderings are deterministic in the
FileRecord sequence and structure text alone (they never read the clock);
the JSON rendering is deterministic only once the invocation time is fixed
as an additional input. -/
theorem c3_markdown_text_deterministic (files : List FileData) (struc : Str) (now₁ now₂ : Nat) :
    formatOutput files struc .Markdown now₁ = formatOutput files struc .Markdown now₂ ∧
    formatOutput files struc .Text now₁ = formatOutput files struc .Text now₂ :=
  ⟨rfl, rfl⟩

/-! ## Claim C5 — cancellation discards results and skips the write -/

/-- C5: if cancellation is observed by any token read during `collectFiles`,
the export run ends in the informational cancelled outcome: no document is
produced, the collected records are discarded, and no error is raised. -/
theorem c5_cancel_mid_scan_yields_cancelled (root : Str) (t : FS) (format : ExportFormat)
    (cancelAt : Option Nat) (now : Nat)
    (h : ∃ i, i < (collectFiles root t cancelAt).polls ∧ polled cancelAt i = true) :
    exportRun root t format cancelAt now = .cancelledInfo := by
  obtain ⟨i, hi, hp⟩ := h
  have hpolls : polled cancelAt (collectFiles root t cancelAt).polls = true :=
    polled_mono hp (Nat.le_of_lt hi)
  simp [exportRun, hpolls]

/-- C5 (witness): a one-file root with cancellation observed from the very
first token read. -/
theorem c5_cancel_witness :
    exportRun (str "/w") oneFileTree .Text (some 0) 0 = .cancelledInfo :=
  c5_cancel_mid_scan_yields_cancelled (str "/w") oneFileTree .Text (some 0) 0
    ⟨0, by decide, by decide⟩

/-! ## Claim C7 — the size-threshold boundary -/

/-- C7: a file of exactly `1024 * 1024` bytes passing all other filters is
captured as a FileRecord, while a file one byte larger is excluded from
content capture yet still appears in the structure listing (the structure
pass applies no size threshold). -/
theorem c7_threshold_boundary (c₁ c₂ : Str) (m₁ m₂ : Nat) :
    (collectFiles (str "/w") (thresholdTree c₁ c₂ m₁ m₂) none).files =
      [⟨str "exact.ts", c₁, str "typescript", maxFileSizeBytes, m₁⟩] ∧
    getProjectStructure (str "/w") (thresholdTree c₁ c₂ m₁ m₂) =
      .ok (fileMarker ++ str "exact.ts" ++ '\n' :: (fileMarker ++ str "over.ts")) :=
  ⟨rfl, rfl⟩

/-! ## Claim C8 — quick export of a selection in Text format -/

/-- C8: quick export in Text format of a non-empty selection with selected
text `x` on a document at `/p/f.go` produces exactly `FILE: /p/f.go`, two
newlines, and `x` — whatever the document's full text and language are. -/
theorem c8_quick_export_text (docText languageId : Str) :
    quickExportOutput (str "/p/f.go") languageId docText false (str "x") .Text =
      str "FILE: /p/f.go" ++ str "\n\n" ++ str "x" :=
  rfl

/-! ## Claim C9 — partial results survive `collectFiles` and are discarded
by the post-scan check -/

/-- C9: on a two-file root with cancellation observed after the first file,
`collectFiles` itself returns the one record already collected (it does not
clear the list); the cancellation was observed by a mid-scan token read, and
`exportProject`'s post-scan check then yields the cancelled outcome, so the
partial records are discarded without formatting or writing. -/
theorem c9_collectFiles_returns_partial :
    (collectFiles (str "/w") twoFilesTree (some 3)).files =
      [⟨str "a.ts", str "aa", str "typescript", 3, 5⟩] ∧
    polled (some 3) 3 = true ∧
    3 < (collectFiles (str "/w") twoFilesTree (some 3)).polls ∧
    exportRun (str "/w") twoFilesTree .Text (some 3) 0 = .cancelledInfo :=
  ⟨by decide, by decide, by decide, by decide⟩

/-! ## Claim C10 — the unguarded progress division -/

theorem reports_extend {st : ScanSt} {total : Nat} (msg : Str)
    (h : ∀ r ∈ st.reports, r.increment = jsDiv 100 total) :
    ∀ r ∈ st.reports ++ [(⟨msg, jsDiv 100 total⟩ : Report)], r.increment = jsDiv 100 total := by
  intro r hr
  rcases List.mem_append.mp hr with h' | h'
  · exact h r h'
  · simp only [List.mem_singleton] at h'
    subst h'
    rfl

theorem travGo_reports_increment (root : Str) (cancelAt : Option Nat) (total : Nat) :
    ∀ (t : FS) (parentRel : Str) (st : ScanSt),
      (∀ r ∈ st.reports, r.increment = jsDiv 100 total) →
      ∀ r ∈ (travGo root cancelAt total t parentRel st).reports, r.increment = jsDiv 100 total := by
  intro t
  induction t with
  | nil => intro parentRel st h; simpa [travGo] using h
  | file n sz mt ct rd rest ih =>
    intro parentRel st h
    simp only [travGo]
    split
    · simpa using h
    · split
      · exact ih parentRel _ h
      · split
        · exact ih parentRel _ h
        · split
          · exact ih parentRel _ (reports_extend _ h)
          · split
            · exact ih parentRel _ (reports_extend _ h)
            · split
              · exact ih parentRel _ (reports_extend _ h)
              · exact ih parentRel _ (reports_extend _ h)
  | dir n rd es rest ihEs ihRest =>
    intro parentRel st h
    simp only [travGo]
    split
    · simpa using h
    · split
      · exact ihRest parentRel _ h
      · split
        · exact ihRest parentRel _ h
        · split
          · exact ihRest parentRel _ (ihEs _ _ (reports_extend _ h))
          · exact ihRest parentRel _ (reports_extend _ h)

/-- C10: every progress report of the scanning pass carries the increment
`100 / totalFiles` with no guard: when the counting pass finds zero files
the reported increment is the division-by-zero value (JavaScript Infinity). -/
theorem c10_division_by_zero (root : Str) (t : FS) (cancelAt : Option Nat)
    (htotal : (collectFiles root t cancelAt).total = 0) :
    ∀ r ∈ (collectFiles root t cancelAt).reports, r.increment = JsNum.inf := by
  intro r hr
  have h0 : (countGo cancelAt t 0 0).2 = 0 := htotal
  have hinv := travGo_reports_increment root cancelAt (countGo cancelAt t 0 0).2 t []
    ⟨(countGo cancelAt t 0 0).1, 0, [], []⟩ (by intro r hr; simp at hr) r hr
  rw [hinv, h0]
  simp [jsDiv]

/-- C10 (witness): a root holding one empty directory — the count is zero,
yet the scanning pass reports the directory entry, with the
division-by-zero increment. -/
theorem c10_division_by_zero_witness :
    (collectFiles (str "/w") emptyDirTree none).total = 0 ∧
    (collectFiles (str "/w") emptyDirTree none).reports ≠ [] ∧
    ∀ r ∈ (collectFiles (str "/w") emptyDirTree none).reports, r.increment = JsNum.inf :=
  ⟨by decide, by decide, c10_division_by_zero (str "/w") emptyDirTree none (by decide)⟩

/-! ## Claim C1 — every collected record passed all four filters -/

/-- The four conditions spec §3/§8 promise of every record: basename not
quick-ignored, relative path not pattern-ignored, path not binary, size
within the threshold. -/
def acceptedRecord (r : FileData) : Prop :=
  isQuickIgnored (basename r.path) = false ∧ isPatternIgnored r.path = false ∧
    isBinaryPath r.path = false ∧ r.size ≤ maxFileSizeBytes

theorem files_extend {st : ScanSt} {r' : FileData}
    (hst : ∀ r ∈ st.files, acceptedRecord r) (hr' : acceptedRecord r') :
    ∀ r ∈ st.files ++ [r'], acceptedRecord r := by
  intro r hr
  rcases List.mem_append.mp hr with h | h
  · exact hst r h
  · simp only [List.mem_singleton] at h
    subst h
    exact hr'

theorem travGo_files_accepted (root : Str) (cancelAt : Option Nat) (total : Nat) :
    ∀ (t : FS) (parentRel : Str) (st : ScanSt),
      noSlashNames t = true →
      (∀ r ∈ st.files, acceptedRecord r) →
      ∀ r ∈ (travGo root cancelAt total t parentRel st).files, acceptedRecord r := by
  intro t
  induction t with
  | nil => intro parentRel st _ hst; simpa [travGo] using hst
  | file n sz mt ct rd rest ih =>
    intro parentRel st hns hst
    simp only [noSlashNames, Bool.and_eq_true] at hns
    obtain ⟨hn, hrest⟩ := hns
    simp only [travGo]
    split
    · simpa using hst
    · split
      · exact ih parentRel _ hrest hst
      · next hq =>
        split
        · exact ih parentRel _ hrest hst
        · next hpat =>
          split
          · exact ih parentRel _ hrest hst
          · next hsz =>
            split
            · exact ih parentRel _ hrest hst
            · next hbin =>
              split
              · refine ih parentRel _ hrest (files_extend hst ?_)
                have hq' : isQuickIgnored n = false := by
                  cases h' : isQuickIgnored n with
                  | false => rfl
                  | true => exact absurd h' hq
                have hpat' : isPatternIgnored (joinRel parentRel n) = false := by
                  cases h' : isPatternIgnored (joinRel parentRel n) with
                  | false => rfl
                  | true => exact absurd h' hpat
                have hbin' : isBinaryPath (pathJoin root (joinRel parentRel n)) = false := by
                  cases h' : isBinaryPath (pathJoin root (joinRel parentRel n)) with
                  | false => rfl
                  | true => exact absurd h' hbin
                refine ⟨?_, hpat', isBinaryPath_rel_of_pathJoin root hbin',
                  by show sz ≤ maxFileSizeBytes; omega⟩
                rw [basename_joinRel parentRel hn]
                exact hq'
              · exact ih parentRel _ hrest hst
  | dir n rd es rest ihEs ihRest =>
    intro parentRel st hns hst
    simp only [noSlashNames, Bool.and_eq_true] at hns
    obtain ⟨⟨hn, hes⟩, hrest⟩ := hns
    simp only [travGo]
    split
    · simpa using hst
    · split
      · exact ihRest parentRel _ hrest hst
      · split
        · exact ihRest parentRel _ hrest hst
        · split
          · exact ihRest parentRel _ hrest (ihEs _ _ hes hst)
          · exact ihRest parentRel _ hrest hst

/-- C1: every FileRecord produced by the scanning pass satisfies all four
filters — its basename is not in the quick-ignore set, its root-relative
path is pattern-ignored by none of the configured patterns, its path is not
classified binary, and its size does not exceed the 1 MiB threshold. -/
theorem c1_collected_records_filtered (root : Str) (t : FS) (cancelAt : Option Nat)
    (hns : noSlashNames t = true) :
    ∀ r ∈ (collectFiles root t cancelAt).files,
      isQuickIgnored (basename r.path) = false ∧ isPatternIgnored r.path = false ∧
        isBinaryPath r.path = false ∧ r.size ≤ maxFileSizeBytes := by
  intro r hr
  exact travGo_files_accepted root cancelAt (countGo cancelAt t 0 0).2 t []
    ⟨(countGo cancelAt t 0 0).1, 0, [], []⟩ hns (by intro r hr; simp at hr) r hr

/-- C1 (witness): instantiated on the two-file root; the record collected
for `a.ts` satisfies all four filter conditions. -/
theorem c1_collected_records_filtered_witness :
    noSlashNames twoFilesTree = true ∧
    (⟨str "a.ts", str "aa", str "typescript", 3, 5⟩ : FileData) ∈
      (collectFiles (str "/w") twoFilesTree none).files ∧
    isQuickIgnored (basename (str "a.ts")) = false ∧
    isPatternIgnored (str "a.ts") = false ∧ isBinaryPath (str "a.ts") = false ∧
    (3 : Nat) ≤ maxFileSizeBytes :=
  ⟨by decide, by decide,
   c1_collected_records_filtered (str "/w") twoFilesTree none (by decide)
     ⟨str "a.ts", str "aa", str "typescript", 3, 5⟩ (by decide)⟩

/-! ## Claim C4 — failure isolation -/

/-- The records the scanning pass contributes for one (sub)listing, as a
pure function of the tree: exactly the accepted, readable, non-binary,
small-enough files, in traversal order. -/
def newFiles (root : Str) : FS → Str → List FileData
  | .nil, _ => []
  | .file n sz mt ct rd rest, parentRel =>
    let rel := joinRel parentRel n
    (if isQuickIgnored n then []
     else if isPatternIgnored rel then []
     else if sz > maxFileSizeBytes then []
     else if isBinaryPath (pathJoin root rel) then []
     else if rd then [⟨rel, ct, getLanguageId (pathJoin root rel), sz, mt⟩]
     else []) ++ newFiles root rest parentRel
  | .dir n rd es rest, parentRel =>
    let rel := joinRel parentRel n
    (if isQuickIgnored n then []
     else if isPatternIgnored rel then []
     else if rd then newFiles root es rel
     else []) ++ newFiles root rest parentRel

theorem polled_none (n : Nat) : polled none n = false := rfl

theorem travGo_none_files (root : Str) (total : Nat) :
    ∀ (t : FS) (parentRel : Str) (st : ScanSt),
      (travGo root none total t parentRel st).files = st.files ++ newFiles root t parentRel := by
  intro t
  induction t with
  | nil => intro parentRel st; simp [travGo, newFiles, polled_none]
  | file n sz mt ct rd rest ih =>
    intro parentRel st
    by_cases hq : isQuickIgnored n = true
    · simp only [travGo, newFiles]
      simp [polled_none, hq, ih]
    · by_cases hpat : isPatternIgnored (joinRel parentRel n) = true
      · simp only [travGo, newFiles]
        simp [polled_none, hq, hpat, ih]
      · by_cases hsz : sz > maxFileSizeBytes
        · simp only [travGo, newFiles]
          simp [polled_none, hq, hpat, hsz, ih]
        · by_cases hbin : isBinaryPath (pathJoin root (joinRel parentRel n)) = true
          · simp only [travGo, newFiles]
            simp [polled_none, hq, hpat, hsz, hbin, ih]
          · cases rd with
            | false =>
              simp only [travGo, newFiles]
              simp [polled_none, hq, hpat, hsz, hbin, ih]
            | true =>
              simp only [travGo, newFiles]
              simp [polled_none, hq, hpat, hsz, hbin, ih]
  | dir n rd es rest ihEs ihRest =>
    intro parentRel st
    by_cases hq : isQuickIgnored n = true
    · simp only [travGo, newFiles]
      simp [polled_none, hq, ihRest]
    · by_cases hpat : isPatternIgnored (joinRel parentRel n) = true
      · simp only [travGo, newFiles]
        simp [polled_none, hq, hpat, ihRest]
      · cases rd with
        | false =>
          simp only [travGo, newFiles]
          simp [polled_none, hq, hpat, ihRest]
        | true =>
          simp only [travGo, newFiles]
          simp [polled_none, hq, hpat, ihEs, ihRest]

/-- Replace every unreadable entry by its absence: unreadable files are
dropped, unreadable directories become readable empty directories — the
tree the scan would see if nothing failed. -/
def pruneFS : FS → FS
  | .nil => .nil
  | .file n s m c true rest => .file n s m c true (pruneFS rest)
  | .file _ _ _ _ false rest => pruneFS rest
  | .dir n true es rest => .dir n true (pruneFS es) (pruneFS rest)
  | .dir n false _ rest => .dir n true .nil (pruneFS rest)

theorem newFiles_pruneFS (root : Str) :
    ∀ (t : FS) (parentRel : Str),
      newFiles root t parentRel = newFiles root (pruneFS t) parentRel := by
  intro t
  induction t with
  | nil => intro parentRel; rfl
  | file n sz mt ct rd rest ih =>
    intro parentRel
    cases rd with
    | false => simp [newFiles, pruneFS, ih, ite_self]
    | true => simp only [newFiles, pruneFS]; rw [ih]
  | dir n rd es rest ihEs ihRest =>
    intro parentRel
    cases rd with
    | false => simp [newFiles, pruneFS, ihRest, ite_self]
    | true => simp only [newFiles, pruneFS]; rw [ihEs, ihRest]

/-- C4 (amended, scanning side): the scanning traversal is failure-isolated:
with no cancellation it always completes, and per-entry read failures only
remove the affected entries — the records collected on any tree are exactly
those collected on the tree with every unreadable entry absent. -/
theorem c4_scan_failure_isolated (root : Str) (t : FS) :
    (collectFiles root t none).files = (collectFiles root (pruneFS t) none).files := by
  simp only [collectFiles]
  rw [travGo_none_files, travGo_none_files]
  exact congrArg _ (newFiles_pruneFS root t [])

/-- C4 (counterexample): the structure-building traversal is NOT
failure-isolated: on a root whose subdirectory `sub` is unreadable,
`getProjectStructure` aborts with the error instead of skipping the entry,
even though the scanning traversal on the same tree completes and still
collects the sibling `ok.ts`. -/
theorem c4_structure_not_isolated :
    getProjectStructure (str "/w") unreadableDirTree = .error () ∧
    (collectFiles (str "/w") unreadableDirTree none).files =
      [⟨str "ok.ts", str "b", str "typescript", 4, 0⟩] :=
  ⟨rfl, by decide⟩

/-! ## Claim C6 — ordering of the structure listing -/

theorem charOrd_eq_lt {c d : Char} : charOrd c d = .lt ↔ c < d := by
  unfold charOrd
  split_ifs with h1 h2
  · simp [h1]
  · simp [h2]
  · simp [h1]

theorem charOrd_eq_eq {c d : Char} : charOrd c d = .eq ↔ c = d := by
  unfold charOrd
  split_ifs with h1 h2
  · exact iff_of_false (by simp) (ne_of_lt h1)
  · exact iff_of_true rfl h2
  · exact iff_of_false (by simp) h2

theorem charOrd_eq_gt {c d : Char} : charOrd c d = .gt ↔ d < c := by
  unfold charOrd
  split_ifs with h1 h2
  · exact iff_of_false (by simp) (lt_asymm h1)
  · exact iff_of_false (by simp) (by rw [h2]; exact lt_irrefl d)
  · exact iff_of_true rfl (lt_of_le_of_ne (not_lt.mp h1) (fun hdc => h2 hdc.symm))

theorem strOrd_swap : ∀ a b : Str, strOrd a b = (strOrd b a).swap := by
  intro a
  induction a with
  | nil => intro b; cases b <;> rfl
  | cons c cs ih =>
    intro b
    cases b with
    | nil => rfl
    | cons d ds =>
      rcases h : charOrd c d with _ | _ | _
      · have h2 : charOrd d c = .gt := charOrd_eq_gt.mpr (charOrd_eq_lt.mp h)
        simp [strOrd, h, h2, Ordering.swap]
      · have h2 : charOrd d c = .eq := charOrd_eq_eq.mpr (charOrd_eq_eq.mp h).symm
        simp [strOrd, h, h2, Ordering.swap, ih ds]
      · have h2 : charOrd d c = .lt := charOrd_eq_lt.mpr (charOrd_eq_gt.mp h)
        simp [strOrd, h, h2, Ordering.swap]

theorem strOrd_le_trans : ∀ a b c : Str,
    strOrd a b ≠ .gt → strOrd b c ≠ .gt → strOrd a c ≠ .gt := by
  intro a
  induction a with
  | nil =>
    intro b c _ _
    cases c <;> simp [strOrd]
  | cons x xs ih =>
    intro b c hab hbc
    cases b with
    | nil => simp [strOrd] at hab
    | cons y ys =>
      cases c with
      | nil => simp [strOrd] at hbc
      | cons z zs =>
        rcases hxy : charOrd x y with _ | _ | _ <;> rcases hyz : charOrd y z with _ | _ | _ <;>
          simp only [strOrd, hxy, hyz] at hab hbc ⊢
        · have : x < z := lt_trans (charOrd_eq_lt.mp hxy) (charOrd_eq_lt.mp hyz)
          simp [charOrd_eq_lt.mpr this]
        · have : x < z := (charOrd_eq_eq.mp hyz) ▸ charOrd_eq_lt.mp hxy
          simp [charOrd_eq_lt.mpr this]
        · exact absurd rfl hbc
        · have : x < z := (charOrd_eq_eq.mp hxy) ▸ charOrd_eq_lt.mp hyz
          simp [charOrd_eq_lt.mpr this]
        · have hxz : charOrd x z = .eq :=
            charOrd_eq_eq.mpr ((charOrd_eq_eq.mp hxy).trans (charOrd_eq_eq.mp hyz))
          simp only [hxz]
          exact ih ys zs hab hbc
        · exact absurd rfl hbc
        · exact absurd rfl hab
        · exact absurd rfl hab
        · exact absurd rfl hab

theorem localeCompare_nonpos_iff {a b : Str} : localeCompare a b ≤ 0 ↔ strOrd a b ≠ .gt := by
  unfold localeCompare
  rcases h : strOrd a b with _ | _ | _
  · exact iff_of_true (by decide) (by simp)
  · exact iff_of_true (by decide) (by simp)
  · exact iff_of_false (by decide) (by simp)

theorem localeCompare_swap (a b : Str) : localeCompare a b = -localeCompare b a := by
  unfold localeCompare
  rw [strOrd_swap a b]
  rcases strOrd b a with _ | _ | _ <;> decide

theorem jsCmp_swap (a : Str) (da : Bool) (b : Str) (db : Bool) :
    jsCmp a da b db = -jsCmp b db a da := by
  cases da <;> cases db <;> simp [jsCmp] <;> rw [localeCompare_swap]

theorem jsCmp_le_trans {a b c : Str} {da db dc : Bool}
    (h1 : jsCmp a da b db ≤ 0) (h2 : jsCmp b db c dc ≤ 0) : jsCmp a da c dc ≤ 0 := by
  have hlc : localeCompare a b ≤ 0 → localeCompare b c ≤ 0 → localeCompare a c ≤ 0 := by
    intro x y
    rw [localeCompare_nonpos_iff] at x y ⊢
    exact strOrd_le_trans a b c x y
  cases da <;> cases db <;> cases dc <;> simp [jsCmp] at h1 h2 ⊢ <;> exact hlc h1 h2

/-- The placement relation of the embedded stable sort: `insRel p q` holds
when the comparator allows `p` to stand before `q` (the comparator on the
pair `(q, p)` is nonnegative). -/
def insRel (p q : Str × Bool) : Prop := 0 ≤ jsCmp q.1 q.2 p.1 p.2

instance : DecidableRel insRel := fun p q => by unfold insRel; infer_instance

instance : IsTotal (Str × Bool) insRel := ⟨by
  intro p q
  simp only [insRel]
  rcases le_or_lt 0 (jsCmp q.1 q.2 p.1 p.2) with h' | h'
  · exact Or.inl h'
  · right
    rw [jsCmp_swap]
    omega⟩

instance : IsTrans (Str × Bool) insRel := ⟨by
  intro p q r hpq hqr
  simp only [insRel] at hpq hqr ⊢
  have h1 : jsCmp p.1 p.2 q.1 q.2 ≤ 0 := by rw [jsCmp_swap]; omega
  have h2 : jsCmp q.1 q.2 r.1 r.2 ≤ 0 := by rw [jsCmp_swap]; omega
  have h3 := jsCmp_le_trans h1 h2
  rw [jsCmp_swap] at h3
  omega⟩

theorem listing_insEnt (mk : FS → FS) (nm : Str) (isD : Bool)
    (hmk : ∀ rest, listing (mk rest) = (nm, isD) :: listing rest) :
    ∀ t, listing (insEnt mk nm isD t) = List.orderedInsert insRel (nm, isD) (listing t) := by
  intro t
  induction t with
  | nil => simp [insEnt, listing, hmk, List.orderedInsert]
  | file n' s' m' c' r' rest ih =>
    simp only [insEnt]
    by_cases h : jsCmp n' false nm isD < 0
    · rw [if_pos h]
      have hrel : ¬ insRel (nm, isD) (n', false) := by simp only [insRel]; omega
      simp [listing, List.orderedInsert, hrel, ih]
    · rw [if_neg h]
      have hrel : insRel (nm, isD) (n', false) := by simp only [insRel]; omega
      simp [hmk, listing, List.orderedInsert, hrel]
  | dir n' r' es' rest ihEs ih =>
    simp only [insEnt]
    by_cases h : jsCmp n' true nm isD < 0
    · rw [if_pos h]
      have hrel : ¬ insRel (nm, isD) (n', true) := by simp only [insRel]; omega
      simp [listing, List.orderedInsert, hrel, ih]
    · rw [if_neg h]
      have hrel : insRel (nm, isD) (n', true) := by simp only [insRel]; omega
      simp [hmk, listing, List.orderedInsert, hrel]

theorem listing_sortFS : ∀ t : FS, listing (sortFS t) = List.insertionSort insRel (listing t) := by
  intro t
  induction t with
  | nil => rfl
  | file n s m c r rest ih =>
    show listing (insEnt (.file n s m c r) n false (sortFS rest)) = _
    rw [listing_insEnt (FS.file n s m c r) n false (fun rest' => rfl) (sortFS rest), ih]
    rfl
  | dir n r es rest ihEs ih =>
    show listing (insEnt (.dir n r es) n true (sortFS rest)) = _
    rw [listing_insEnt (FS.dir n r es) n true (fun rest' => rfl) (sortFS rest), ih]
    rfl

/-- The ordering the spec promises of sibling entries: every directory
before every file, and within each of the two groups names in
lexicographic order. -/
def structOrder (p q : Str × Bool) : Prop :=
  (p.2 = true ∧ q.2 = false) ∨ (p.2 = q.2 ∧ strOrd p.1 q.1 ≠ .gt)

theorem insRel_structOrder {p q : Str × Bool} (h : insRel p q) : structOrder p q := by
  obtain ⟨pn, pd⟩ := p
  obtain ⟨qn, qd⟩ := q
  simp only [insRel] at h
  have h' : jsCmp pn pd qn qd ≤ 0 := by rw [jsCmp_swap]; omega
  cases pd <;> cases qd
  · right
    refine ⟨rfl, ?_⟩
    rw [← localeCompare_nonpos_iff]
    simpa [jsCmp] using h'
  · exfalso
    simp [jsCmp] at h'
  · exact Or.inl ⟨rfl, rfl⟩
  · right
    refine ⟨rfl, ?_⟩
    rw [← localeCompare_nonpos_iff]
    simpa [jsCmp] using h'

/-- C6: whatever order the underlying directory listing arrives in, the
sorted listing the structure-building traversal iterates over (the sort of
lines 310-316, applied to every visited directory) places all
subdirectories before all files and is lexicographically ordered within
each of the two groups. -/
theorem c6_structure_children_sorted (l : FS) :
    List.Pairwise structOrder (listing (sortFS l)) := by
  rw [listing_sortFS]
  exact (List.sorted_insertionSort insRel (listing l)).imp (fun h => insRel_structOrder h)
